import Mathlib

/-!
Shallow embedding of the vsftp TUI client (src/src/main.rs) for checking the
natural-language specification against the code.

Modelling conventions:
* Remote paths (`PathBuf` in the source) are lists of path segments.  The two
  configured roots `.` and `/` both become the empty segment list, `push`
  appends a segment and `pop` drops the last one; the root test
  `current_path != "." && current_path != "/"` from `refresh_files` becomes
  `segments not equal to the empty list`.
* The SFTP port is passed in as data: a directory refresh receives the result
  of `sftp.readdir` (a list of (file name, FileStat) pairs, or an error
  string); `handle_enter` receives the whole `readdir` function because it
  changes the path before refreshing.
* `std::path::Path::is_dir()` used by the sort comparator in `refresh_files`
  stats the LOCAL filesystem; it is modelled by an arbitrary predicate
  `localIsDir` on the entry name.
* Rust `sort_by` is a stable sort; it is modelled by a stable insertion sort
  over the same comparator turned into a boolean total preorder.
* The byte stream of a remote file is the list of successive successful
  `read` results (each a chunk of bytes, the source buffer bounds a chunk by
  8192); a failing read or write is a `ReadStep.fail` step, and end-of-stream
  is the end of the list (the source breaks on a zero-length read).
* Channel sends are modelled as infallible: a worker run produces the list of
  events it sent, the bytes it wrote to the local file, and its outcome.
-/

namespace Vsftp

/-- File metadata as used by the source: the optional size from the remote
stat and whether the entry is a directory (remote `stat.is_dir()`). -/
structure FileStat where
  size : Option Nat
  isDir : Bool
deriving DecidableEq

/-- `DownloadProgress` from the source. -/
inductive DownloadProgress where
  | Started
  | InProgress (bytesDone : Nat) (totalBytes : Nat)
  | Completed
  | Failed (reason : String)
deriving DecidableEq

/-- `FileListItem` from the source. -/
inductive FileListItem where
  | Parent
  | File (name : String) (stat : FileStat)
  | Directory (name : String)
deriving DecidableEq

/-- Is the item a `File` entry. -/
def FileListItem.isFile : FileListItem → Bool
  | FileListItem.File _ _ => true
  | _ => false

/-- Is the item a `Directory` entry. -/
def FileListItem.isDirEntry : FileListItem → Bool
  | FileListItem.Directory _ => true
  | _ => false

/-- `AppState` from the source; `selected_item` is the optional selected
index held by the `ListState` widget state. -/
structure AppState where
  exit : Bool
  current_path : List String
  items : List FileListItem
  selected_item : Option Nat
  logs : List String
  download_status : Option (String × DownloadProgress)
deriving DecidableEq

/-- `AppState::log` pushes a message at the end of the log list. -/
def AppState.log (s : AppState) (message : String) : AppState :=
  { s with logs := s.logs ++ [message] }

/-- Rendering of a path for log messages; the empty segment list renders as
the initial root. -/
def pathDisplay : List String → String
  | [] => "."
  | segs => String.intercalate "/" segs

/-- Lexicographic comparison of char lists, matching the byte-wise `Ord` used
by Rust on the (ASCII) file names of the listings. -/
def charListLE : List Char → List Char → Bool
  | [], _ => true
  | _ :: _, [] => false
  | a :: as, b :: bs => if a < b then true else if b < a then false else charListLE as bs

/-- Boolean name order on strings. -/
def strLE (a b : String) : Bool := charListLE a.data b.data

/-- The comparator of `refresh_files` as a boolean total preorder: the source
compares `path_a.is_dir()` (a LOCAL filesystem check, modelled by
`localIsDir` on the entry name) reversed, then the file names. -/
def sortLE (localIsDir : String → Bool) (a b : String × FileStat) : Bool :=
  if localIsDir a.1 = localIsDir b.1 then strLE a.1 b.1 else localIsDir a.1

/-- Insert before the first element that is not strictly smaller; together
with `insertionSortLE` this is a stable sort, the behaviour of Rust
`sort_by`. -/
def orderedInsertLE {α : Type} (le : α → α → Bool) (a : α) : List α → List α
  | [] => [a]
  | b :: l => if le a b then a :: b :: l else b :: orderedInsertLE le a l

/-- Stable insertion sort. -/
def insertionSortLE {α : Type} (le : α → α → Bool) : List α → List α
  | [] => []
  | a :: l => orderedInsertLE le a (insertionSortLE le l)

/-- Classification of one sorted entry in `refresh_files`: the remote
`stat.is_dir()` decides between `Directory` and `File`. -/
def classifyEntry (e : String × FileStat) : FileListItem :=
  if e.2.isDir then FileListItem.Directory e.1 else FileListItem.File e.1 e.2

/-- Log line emitted before the listing call. -/
def fetchLogMsg (p : List String) : String :=
  "Fetching files from " ++ pathDisplay p ++ "..."

/-- `App::refresh_files`: log, list the current directory, and on success
prepend the parent link when not at a root, sort the entries with the
comparator, classify them, replace `items`, and select index 0 only when the
new list is non-empty; on failure only log the error. -/
def refreshFiles (localIsDir : String → Bool)
    (readdirResult : Except String (List (String × FileStat)))
    (s : AppState) : AppState :=
  let s := s.log (fetchLogMsg s.current_path)
  match readdirResult with
  | Except.ok entries =>
      let parent : List FileListItem :=
        if s.current_path ≠ [] then [FileListItem.Parent] else []
      let sorted := insertionSortLE (sortLE localIsDir) entries
      let items := parent ++ sorted.map classifyEntry
      let s := { s with items := items }
      let s := if s.items.isEmpty then s else { s with selected_item := some 0 }
      s.log ("Found " ++ toString s.items.length ++ " items.")
  | Except.error e => s.log ("Error fetching files: " ++ e)

/-- The new index computed by `App::select_next` from a current index on a
list of length `L`. -/
def nextIndex (L i : Nat) : Nat := if i ≥ L - 1 then 0 else i + 1

/-- The new index computed by `App::select_previous`. -/
def prevIndex (L i : Nat) : Nat := if i = 0 then L - 1 else i - 1

/-- `App::select_next`: no-op on an empty list, otherwise wrap forward; an
absent selection becomes index 0. -/
def selectNext (s : AppState) : AppState :=
  if s.items.isEmpty then s
  else
    let i := match s.selected_item with
      | some i => nextIndex s.items.length i
      | none => 0
    { s with selected_item := some i }

/-- `App::select_previous`: no-op on an empty list, otherwise wrap backward;
an absent selection becomes index 0. -/
def selectPrevious (s : AppState) : AppState :=
  if s.items.isEmpty then s
  else
    let i := match s.selected_item with
      | some i => prevIndex s.items.length i
      | none => 0
    { s with selected_item := some i }

/-- `App::handle_enter`.  `readdir` is the listing port indexed by path,
`ctrl` the CONTROL modifier.  Returns `none` where the source would panic
(the unchecked indexing `items[selected_index]`). -/
def handleEnter (localIsDir : String → Bool)
    (readdir : List String → Except String (List (String × FileStat)))
    (ctrl : Bool) (s : AppState) : Option AppState :=
  match s.selected_item with
  | none => some s
  | some i =>
    match s.items[i]? with
    | none => none
    | some FileListItem.Parent =>
        let s := { s with current_path := s.current_path.dropLast }
        some (refreshFiles localIsDir (readdir s.current_path) s)
    | some (FileListItem.Directory name) =>
        if ctrl then
          some (s.log ("Queueing directory " ++ name ++ " for download..."))
        else
          let s := { s with current_path := s.current_path ++ [name] }
          some (refreshFiles localIsDir (readdir s.current_path) s)
    | some (FileListItem.File name _stat) =>
        some { s.log ("Starting download for " ++ name) with
                download_status := some (name, DownloadProgress.Started) }

/-- `App::update_progress`, the handling of one received event: `Completed`
and `Failed` log and clear the visible slot, everything else (`Started`,
`InProgress`) overwrites the visible slot with the event. -/
def applyProgressEvent (s : AppState) (ev : String × DownloadProgress) : AppState :=
  match ev with
  | (name, DownloadProgress.Completed) =>
      { s.log ("Download complete: " ++ name) with download_status := none }
  | (name, DownloadProgress.Failed e) =>
      { s.log ("Download failed for " ++ name ++ ": " ++ e) with download_status := none }
  | (name, p) => { s with download_status := some (name, p) }

/-- One display tick of `App::update_progress`: `try_recv` takes at most one
event off the channel queue and applies it. -/
def updateProgress (q : List (String × DownloadProgress)) (s : AppState) :
    List (String × DownloadProgress) × AppState :=
  match q with
  | [] => ([], s)
  | ev :: rest => (rest, applyProgressEvent s ev)

/-- `n` display ticks of the main loop, each calling `update_progress`
once. -/
def updateProgressN : Nat → List (String × DownloadProgress) → AppState →
    List (String × DownloadProgress) × AppState
  | 0, q, s => (q, s)
  | n + 1, q, s =>
    let r := updateProgress q s
    updateProgressN n r.1 r.2

/-- One iteration of the read loop in `download_file`: a successful read of a
chunk of bytes (the source buffer bounds a chunk by 8192 bytes; a zero-length
chunk is the end-of-stream read), or a failing read or write carrying the
error message. -/
inductive ReadStep where
  | chunk (bytes : List Nat)
  | fail (msg : String)
deriving DecidableEq

/-- The read/write/send loop of `download_file`.  Returns the events sent on
the channel, the bytes written to the local file, and the outcome of the
function (errors propagate out through the question-mark operator before any
further write or send). -/
def downloadLoop (name : String) (totalBytes : Nat) :
    List ReadStep → Nat → List (String × DownloadProgress) × List Nat × Except String Unit
  | [], _ => ([(name, DownloadProgress.Completed)], [], Except.ok ())
  | ReadStep.fail e :: _, _ => ([], [], Except.error e)
  | ReadStep.chunk c :: rest, downloaded =>
    if c.length = 0 then ([(name, DownloadProgress.Completed)], [], Except.ok ())
    else
      let r := downloadLoop name totalBytes rest (downloaded + c.length)
      ((name, DownloadProgress.InProgress (downloaded + c.length) totalBytes) :: r.1,
        c ++ r.2.1, r.2.2)

/-- `download_file`: the displayed total is `stat.size.unwrap_or(0)` and the
running byte counter starts at 0. -/
def downloadFile (name : String) (stat : FileStat) (steps : List ReadStep) :
    List (String × DownloadProgress) × List Nat × Except String Unit :=
  downloadLoop name (stat.size.getD 0) steps 0

/-- Content of the local file after `File::create` (create, truncating any
pre-existing content) followed by the writes of the loop. -/
def localFileAfterDownload (_pre : Option (List Nat)) (written : List Nat) : List Nat :=
  written

/-- The wrapper around `download_file` used both by the single-file spawn in
`handle_enter` and by `download_and_report_progress`: when the worker
returns an error, send one `Failed` event with its message. -/
def downloadAndReport (name : String) (stat : FileStat) (steps : List ReadStep) :
    List (String × DownloadProgress) :=
  let r := downloadFile name stat steps
  match r.2.2 with
  | Except.ok _ => r.1
  | Except.error e => r.1 ++ [(name, DownloadProgress.Failed e)]

/-- The successive values of the `downloaded_bytes` counter over a list of
chunks, starting from `d`: the payloads of the `InProgress` events. -/
def progressValues (d : Nat) : List (List Nat) → List Nat
  | [] => []
  | c :: rest => (d + c.length) :: progressValues (d + c.length) rest

mutual

/-- A remote file-system tree: a file with its stat size, a listable
directory, or a directory whose `readdir` fails with a message. -/
inductive RTree where
  | file (size : Option Nat) : RTree
  | dir (entries : RForest) : RTree
  | baddir (msg : String) : RTree
deriving DecidableEq

/-- The named entries of a remote directory, in listing order. -/
inductive RForest where
  | nil : RForest
  | cons (name : String) (t : RTree) (rest : RForest) : RForest
deriving DecidableEq

end

/-- The `FileStat` that the remote listing reports for a node: `is_dir()` is
true exactly for directories (including ones whose own listing will fail). -/
def RTree.statOf : RTree → FileStat
  | RTree.file sz => ⟨sz, false⟩
  | RTree.dir _ => ⟨none, true⟩
  | RTree.baddir _ => ⟨none, true⟩

mutual

/-- `find_files_recursive`: list the path (failing on a file or on a failing
directory), then walk the entries in listing order, recursing into
directories and collecting files. -/
def findFilesRecursive (path : List String) : RTree →
    Except String (List (List String × FileStat))
  | RTree.file _ => Except.error "readdir failed: not a directory"
  | RTree.baddir msg => Except.error msg
  | RTree.dir entries => findFilesForest path entries

/-- The loop body of `find_files_recursive` over the listed entries; any
error from a nested call propagates out immediately. -/
def findFilesForest (path : List String) : RForest →
    Except String (List (List String × FileStat))
  | RForest.nil => Except.ok []
  | RForest.cons name t rest =>
    if (RTree.statOf t).isDir then
      match findFilesRecursive (path ++ [name]) t with
      | Except.error e => Except.error e
      | Except.ok sub =>
        match findFilesForest path rest with
        | Except.error e => Except.error e
        | Except.ok more => Except.ok (sub ++ more)
    else
      match findFilesForest path rest with
      | Except.error e => Except.error e
      | Except.ok more => Except.ok ((path ++ [name], RTree.statOf t) :: more)

end

mutual

/-- All leaf files of a tree rooted at `path`, in depth-first listing
order. -/
def RTree.leaves (path : List String) : RTree → List (List String × FileStat)
  | RTree.file sz => [(path, ⟨sz, false⟩)]
  | RTree.dir f => RForest.leaves path f
  | RTree.baddir _ => []

/-- All leaf files below the entries of a directory at `path`. -/
def RForest.leaves (path : List String) : RForest → List (List String × FileStat)
  | RForest.nil => []
  | RForest.cons name t rest => RTree.leaves (path ++ [name]) t ++ RForest.leaves path rest

end

mutual

/-- Whether the tree contains a directory whose listing fails. -/
def RTree.hasBad : RTree → Bool
  | RTree.file _ => false
  | RTree.dir f => RForest.hasBad f
  | RTree.baddir _ => true

/-- Whether the forest contains a directory whose listing fails. -/
def RForest.hasBad : RForest → Bool
  | RForest.nil => false
  | RForest.cons _ t rest => RTree.hasBad t || RForest.hasBad rest

end

/-- A flat directory of plain files (name, size), as a forest. -/
def forestOfFiles : List (String × Option Nat) → RForest
  | [] => RForest.nil
  | (name, sz) :: rest => RForest.cons name (RTree.file sz) (forestOfFiles rest)

/-- Input state for the C1 evaluation: a non-root path with an empty view. -/
def c1State : AppState :=
  ⟨false, ["x"], [], none, [], none⟩

/-- Remote listing for the C1 evaluation: a plain file whose name sorts
before a directory. -/
def c1Listing : List (String × FileStat) :=
  [("a.txt", ⟨some 5, false⟩), ("bdir", ⟨none, true⟩)]

/-- Input state for the C2 evaluation: at the root, with a stale one-element
view and a live selection. -/
def c2State : AppState :=
  ⟨false, [], [FileListItem.File "old" ⟨some 1, false⟩], some 0, [], none⟩

/-- Input state for the C3 counterexample: browsing `a/b` with the parent
link selected. -/
def c3State : AppState :=
  ⟨false, ["a", "b"], [FileListItem.Parent], some 0, [], none⟩

/-- Listing port for the C3 counterexample and witness: every listing
fails. -/
def c3Readdir : List String → Except String (List (String × FileStat)) :=
  fun _ => Except.error "boom"

/-- State with a directory entry selected, for the C3 witness. -/
def c3StateT : AppState :=
  ⟨false, ["a"], [FileListItem.Directory "d"], some 0, [], none⟩

/-- Sample nested remote directory for the C4 witness. -/
def c4Forest : RForest :=
  RForest.cons "sub"
    (RTree.dir (RForest.cons "b.txt" (RTree.file (some 5)) RForest.nil))
    (RForest.cons "a.txt" (RTree.file (some 10)) RForest.nil)

/-- Sample remote directory containing a failing subdirectory, for the C4
witness. -/
def c4BadForest : RForest :=
  RForest.cons "bad" (RTree.baddir "denied") RForest.nil

/-- States for the C8 witness: a three-element list with index 1 selected,
and an empty list. -/
def c8State : AppState :=
  ⟨false, [], [FileListItem.Directory "d", FileListItem.File "f" ⟨some 1, false⟩,
    FileListItem.File "g" ⟨none, false⟩], some 1, [], none⟩

/-- Empty-list state for the C8 witness. -/
def c8StateEmpty : AppState :=
  ⟨false, [], [], none, [], none⟩

/-- C1: the sort comparator of `refresh_files` consults the LOCAL filesystem
(`Path::is_dir` on the remote path), not the remote `stat.is_dir()`.  When no
remote path happens to exist locally (`localIsDir` constantly false, the
typical run), a refresh of a listing holding the file `a.txt` and the
directory `bdir` produces the file STRICTLY BEFORE the directory, violating
the claimed directories-before-files ordering. -/
theorem c1_sort_uses_local_isdir_bug :
    (refreshFiles (fun _ => false) (Except.ok c1Listing) c1State).items =
      [FileListItem.Parent, FileListItem.File "a.txt" ⟨some 5, false⟩,
        FileListItem.Directory "bdir"] ∧
    ((refreshFiles (fun _ => false) (Except.ok c1Listing) c1State).items[1]?).map
        FileListItem.isFile = some true ∧
    ((refreshFiles (fun _ => false) (Except.ok c1Listing) c1State).items[2]?).map
        FileListItem.isDirEntry = some true := by
  decide

/-- C2: a successful refresh whose listing is empty replaces `items` with the
empty list but leaves the stale selection `some 0` in place — the source only
runs `select(Some(0))` when the new list is non-empty and never resets the
selection to `None`, so the claimed invariant (selection is `None` iff the
list is empty) is violated. -/
theorem c2_empty_refresh_keeps_stale_selection :
    (refreshFiles (fun _ => false) (Except.ok []) c2State).items = [] ∧
    (refreshFiles (fun _ => false) (Except.ok []) c2State).selected_item = some 0 ∧
    (refreshFiles (fun _ => false) (Except.ok []) c2State).selected_item ≠ none := by
  decide

/-- C3 counterexample: activating the parent link pops the path BEFORE the
refresh runs; when the listing then fails, the items and the selection are
unchanged but `current_path` keeps the popped value `a` — it is not the path
from before the activation, contradicting the claim. -/
theorem c3_failed_refresh_changes_path :
    Option.map AppState.items (handleEnter (fun _ => false) c3Readdir false c3State)
        = some c3State.items ∧
    Option.map AppState.selected_item (handleEnter (fun _ => false) c3Readdir false c3State)
        = some c3State.selected_item ∧
    Option.map AppState.current_path (handleEnter (fun _ => false) c3Readdir false c3State)
        = some ["a"] ∧
    some c3State.current_path ≠ some (["a"] : List String) := by
  decide

/-- C7: the aggregator step of `update_progress` handles each event kind as
claimed: `Started` and `InProgress` overwrite the visible slot with the
event payload; `Completed` logs success and clears the slot; `Failed` logs
the failure together with its reason and clears the slot. -/
theorem c7_update_progress_cases (s : AppState) (name : String) (b t : Nat) (e : String) :
    applyProgressEvent s (name, DownloadProgress.Started)
      = { s with download_status := some (name, DownloadProgress.Started) } ∧
    applyProgressEvent s (name, DownloadProgress.InProgress b t)
      = { s with download_status := some (name, DownloadProgress.InProgress b t) } ∧
    (applyProgressEvent s (name, DownloadProgress.Completed)).download_status = none ∧
    (applyProgressEvent s (name, DownloadProgress.Completed)).logs
      = s.logs ++ ["Download complete: " ++ name] ∧
    (applyProgressEvent s (name, DownloadProgress.Failed e)).download_status = none ∧
    (applyProgressEvent s (name, DownloadProgress.Failed e)).logs
      = s.logs ++ ["Download failed for " ++ name ++ ": " ++ e] := by
  exact ⟨rfl, rfl, rfl, rfl, rfl, rfl⟩

/-- C9: `update_progress` consumes at most one event per display tick: after
`n` ticks exactly the first `n` pending events have been taken off the queue,
in order, so an event at queue position `k` reaches the visible slot only at
tick `k + 1`. -/
theorem c9_one_event_per_tick (n : Nat) (q : List (String × DownloadProgress))
    (s : AppState) :
    updateProgressN n q s = (q.drop n, (q.take n).foldl applyProgressEvent s) := by
  induction n generalizing q s with
  | zero => simp [updateProgressN]
  | succ n ih =>
    cases q with
    | nil => simp [updateProgressN, updateProgress, ih]
    | cons ev rest => simp [updateProgressN, updateProgress, ih]

/-- C10: a download whose stream yields zero bytes (the first read returns
0, whether the step list is empty or holds one empty chunk) still creates
the truncated local file (its content is the empty write list, whatever
existed before), emits no `InProgress` event at all, and emits exactly one
`Completed` event. -/
theorem c10_zero_byte_download (name : String) (stat : FileStat)
    (pre : Option (List Nat)) :
    downloadFile name stat [] = ([(name, DownloadProgress.Completed)], [], Except.ok ()) ∧
    downloadFile name stat [ReadStep.chunk []]
      = ([(name, DownloadProgress.Completed)], [], Except.ok ()) ∧
    localFileAfterDownload pre (downloadFile name stat []).2.1 = [] ∧
    (∀ b t, (name, DownloadProgress.InProgress b t) ∉ (downloadFile name stat []).1) := by
  refine ⟨rfl, rfl, rfl, ?_⟩
  intro b t h
  simp [downloadFile, downloadLoop] at h

/-- A refresh whose listing fails only appends the two log lines; every
other field is untouched. -/
theorem refreshFiles_error (f : String → Bool) (e : String) (s : AppState) :
    refreshFiles f (Except.error e) s
      = { s with logs := s.logs ++ [fetchLogMsg s.current_path,
            "Error fetching files: " ++ e] } := by
  simp [refreshFiles, AppState.log]

/-- C3 (amended): when the listing call of a refresh fails, the item list,
the selection and the download slot are unchanged and the error is appended
to the log; but the current path is NOT restored — a parent activation keeps
the popped path and a directory activation keeps the pushed path. -/
theorem c3_amended_list_failure_frame
    (f : String → Bool) (rd : List String → Except String (List (String × FileStat)))
    (e : String) (u s t : AppState) (i j : Nat) (dname : String)
    (hsi : s.selected_item = some i) (hii : s.items[i]? = some FileListItem.Parent)
    (hrs : rd s.current_path.dropLast = Except.error e)
    (htj : t.selected_item = some j)
    (htt : t.items[j]? = some (FileListItem.Directory dname))
    (hrt : rd (t.current_path ++ [dname]) = Except.error e) :
    refreshFiles f (Except.error e) u
      = { u with logs := u.logs ++ [fetchLogMsg u.current_path,
            "Error fetching files: " ++ e] } ∧
    handleEnter f rd false s
      = some { s with
          current_path := s.current_path.dropLast
          logs := s.logs ++ [fetchLogMsg s.current_path.dropLast,
            "Error fetching files: " ++ e] } ∧
    handleEnter f rd false t
      = some { t with
          current_path := t.current_path ++ [dname]
          logs := t.logs ++ [fetchLogMsg (t.current_path ++ [dname]),
            "Error fetching files: " ++ e] } := by
  refine ⟨refreshFiles_error f e u, ?_, ?_⟩
  · simp only [handleEnter, hsi, hii]
    rw [hrs, refreshFiles_error]
  · simp only [handleEnter, htj, htt, if_neg (Bool.false_ne_true)]
    rw [hrt, refreshFiles_error]

/-- Closed witness for the C3 amended theorem at concrete inputs. -/
theorem c3_amended_witness :
    refreshFiles (fun _ => false) (Except.error "boom") c3State
      = { c3State with logs := c3State.logs ++ [fetchLogMsg c3State.current_path,
            "Error fetching files: " ++ "boom"] } ∧
    handleEnter (fun _ => false) c3Readdir false c3State
      = some { c3State with
          current_path := c3State.current_path.dropLast
          logs := c3State.logs ++ [fetchLogMsg c3State.current_path.dropLast,
            "Error fetching files: " ++ "boom"] } ∧
    handleEnter (fun _ => false) c3Readdir false c3StateT
      = some { c3StateT with
          current_path := c3StateT.current_path ++ ["d"]
          logs := c3StateT.logs ++ [fetchLogMsg (c3StateT.current_path ++ ["d"]),
            "Error fetching files: " ++ "boom"] } :=
  c3_amended_list_failure_frame (fun _ => false) c3Readdir "boom" c3State c3State c3StateT
    0 0 "d" (by rfl) (by rfl) (by rfl) (by rfl) (by rfl) (by rfl)

/-- The forward step keeps the index in range. -/
theorem nextIndex_lt (L i : Nat) (hL : 0 < L) : nextIndex L i < L := by
  unfold nextIndex; split <;> omega

/-- The backward step keeps the index in range. -/
theorem prevIndex_lt (L i : Nat) (hL : 0 < L) (hi : i < L) : prevIndex L i < L := by
  unfold prevIndex; split <;> omega

/-- On an in-range index the forward step is the successor modulo `L`. -/
theorem nextIndex_eq_mod (L i : Nat) (hi : i < L) : nextIndex L i = (i + 1) % L := by
  unfold nextIndex
  split
  · have h1 : i + 1 = L := by omega
    rw [h1, Nat.mod_self]
  · rw [Nat.mod_eq_of_lt (by omega)]

/-- Iterating the forward step `n` times from an in-range index adds `n`
modulo `L`. -/
theorem nextIndex_iterate (L n i : Nat) (hi : i < L) :
    (nextIndex L)^[n] i = (i + n) % L := by
  induction n generalizing i with
  | zero => simp [Nat.mod_eq_of_lt hi]
  | succ n ih =>
    rw [Function.iterate_succ_apply, ih (nextIndex L i) (nextIndex_lt L i (by omega)),
      nextIndex_eq_mod L i hi, Nat.mod_add_mod]
    have h1 : i + 1 + n = i + (n + 1) := by omega
    rw [h1]

/-- On an in-range index the backward step is the integer predecessor modulo
`L`. -/
theorem prevIndex_int (L i : Nat) (hL : 0 < L) (hi : i < L) :
    ((prevIndex L i : Nat) : Int) = ((i : Int) - 1) % (L : Int) := by
  have hL' : (0 : Int) < (L : Int) := by exact_mod_cast hL
  unfold prevIndex
  split
  · rename_i h
    subst h
    have hneg : (-1 : Int) % (L : Int) = (L : Int) - 1 := by
      have h1 := Int.add_mul_emod_self_left (-1) ((L : Nat) : Int) 1
      have h2 : (-1 : Int) + (L : Int) * 1 = (L : Int) - 1 := by ring
      rw [h2] at h1
      rw [← h1]
      exact Int.emod_eq_of_lt (by omega) (by omega)
    simp only [Nat.cast_zero, zero_sub, hneg]
    omega
  · rename_i h
    rw [Int.emod_eq_of_lt (by omega) (by omega)]
    omega

/-- Iterating the backward step `n` times from an in-range index subtracts
`n` modulo `L` (as integers), and stays in range. -/
theorem prevIndex_iterate (L n i : Nat) (hL : 0 < L) (hi : i < L) :
    (((prevIndex L)^[n] i : Nat) : Int) = ((i : Int) - n) % (L : Int) ∧
      (prevIndex L)^[n] i < L := by
  induction n generalizing i with
  | zero =>
    refine ⟨?_, hi⟩
    simp only [Function.iterate_zero, id_eq, Nat.cast_zero, sub_zero]
    rw [Int.emod_eq_of_lt (by omega) (by exact_mod_cast hi)]
  | succ n ih =>
    rw [Function.iterate_succ_apply]
    obtain ⟨h1, h2⟩ := ih (prevIndex L i) (prevIndex_lt L i hL hi)
    refine ⟨?_, h2⟩
    rw [h1, prevIndex_int L i hL hi,
      Int.sub_emod (((i : Int) - 1) % (L : Int)) (n : Int) (L : Int),
      Int.emod_emod_of_dvd _ dvd_rfl,
      ← Int.sub_emod]
    congr 1
    push_cast
    ring

/-- Iterating `select_next` from a live in-range selection: items are
untouched and the selection follows the pure index iteration. -/
theorem selectNext_iterate_aux (n : Nat) :
    ∀ (s : AppState) (i : Nat), s.selected_item = some i → i < s.items.length →
    (selectNext^[n] s).items = s.items ∧
      (selectNext^[n] s).selected_item = some ((nextIndex s.items.length)^[n] i) := by
  induction n with
  | zero => intro s i hi _; simp [hi]
  | succ n ih =>
    intro s i hi hiL
    have hne : s.items.isEmpty = false := by
      cases hit : s.items with
      | nil => rw [hit] at hiL; simp at hiL
      | cons a l => simp
    have hstep : selectNext s = { s with selected_item := some (nextIndex s.items.length i) } := by
      simp [selectNext, hne, hi]
    rw [Function.iterate_succ_apply, hstep]
    obtain ⟨ha, hb⟩ := ih { s with selected_item := some (nextIndex s.items.length i) }
      (nextIndex s.items.length i) rfl (nextIndex_lt _ _ (by omega))
    exact ⟨ha, by rw [hb, Function.iterate_succ_apply]⟩

/-- Iterating `select_previous` from a live in-range selection: items are
untouched and the selection follows the pure index iteration. -/
theorem selectPrevious_iterate_aux (n : Nat) :
    ∀ (s : AppState) (i : Nat), s.selected_item = some i → i < s.items.length →
    (selectPrevious^[n] s).items = s.items ∧
      (selectPrevious^[n] s).selected_item = some ((prevIndex s.items.length)^[n] i) := by
  induction n with
  | zero => intro s i hi _; simp [hi]
  | succ n ih =>
    intro s i hi hiL
    have hne : s.items.isEmpty = false := by
      cases hit : s.items with
      | nil => rw [hit] at hiL; simp at hiL
      | cons a l => simp
    have hstep : selectPrevious s
        = { s with selected_item := some (prevIndex s.items.length i) } := by
      simp [selectPrevious, hne, hi]
    rw [Function.iterate_succ_apply, hstep]
    obtain ⟨ha, hb⟩ := ih { s with selected_item := some (prevIndex s.items.length i) }
      (prevIndex s.items.length i) rfl (prevIndex_lt _ _ (by omega) (by omega))
    exact ⟨ha, by rw [hb, Function.iterate_succ_apply]⟩

/-- C8: on a non-empty list of length `L` with selection `i`, `n` `MoveDown`
steps select `(i + n) mod L` and `n` `MoveUp` steps select `(i - n) mod L`
(as integers, rendered through `Int.toNat`), the items being untouched; on
an empty list both moves are no-ops. -/
theorem c8_selection_moves_modulo (s t : AppState) (n i : Nat)
    (hi : s.selected_item = some i) (hiL : i < s.items.length)
    (ht : t.items = []) :
    (selectNext^[n] s).selected_item = some ((i + n) % s.items.length) ∧
    (selectNext^[n] s).items = s.items ∧
    (selectPrevious^[n] s).selected_item
      = some ((((i : Int) - n) % (s.items.length : Int)).toNat) ∧
    (selectPrevious^[n] s).items = s.items ∧
    selectNext t = t ∧ selectPrevious t = t := by
  have hL : 0 < s.items.length := by omega
  obtain ⟨ha, hb⟩ := selectNext_iterate_aux n s i hi hiL
  obtain ⟨hc, hd⟩ := selectPrevious_iterate_aux n s i hi hiL
  obtain ⟨he, hf⟩ := prevIndex_iterate s.items.length n i hL hiL
  refine ⟨?_, ha, ?_, hc, ?_, ?_⟩
  · rw [hb, nextIndex_iterate s.items.length n i hiL]
  · rw [hd]
    have : (prevIndex s.items.length)^[n] i
        = (((i : Int) - n) % (s.items.length : Int)).toNat := by
      rw [← he, Int.toNat_ofNat]
    rw [this]
  · simp [selectNext, ht]
  · simp [selectPrevious, ht]

/-- Closed witness for C8 at a three-element list, `i = 1`, `n = 5`. -/
theorem c8_witness :
    (selectNext^[5] c8State).selected_item = some ((1 + 5) % c8State.items.length) ∧
    (selectNext^[5] c8State).items = c8State.items ∧
    (selectPrevious^[5] c8State).selected_item
      = some ((((1 : Nat) : Int) - (5 : Nat)) % (c8State.items.length : Int)).toNat ∧
    (selectPrevious^[5] c8State).items = c8State.items ∧
    selectNext c8StateEmpty = c8StateEmpty ∧ selectPrevious c8StateEmpty = c8StateEmpty :=
  c8_selection_moves_modulo c8State c8StateEmpty 5 1 (by rfl) (by decide) (by rfl)

/-- Enumerating a flat directory of plain files returns exactly those files,
in listing order. -/
theorem findFilesForest_flat (path : List String) :
    ∀ (l : List (String × Option Nat)),
    findFilesForest path (forestOfFiles l)
      = Except.ok (l.map (fun e => (path ++ [e.1], (⟨e.2, false⟩ : FileStat))))
  | [] => rfl
  | (name, sz) :: rest => by
      simp only [forestOfFiles, findFilesForest, RTree.statOf]
      rw [findFilesForest_flat path rest]
      simp

mutual

/-- On a listable directory tree with no failing directory anywhere, the
enumeration succeeds with exactly the depth-first leaf files. -/
theorem findFilesRecursive_ok : ∀ (path : List String) (t : RTree),
    RTree.hasBad t = false → (RTree.statOf t).isDir = true →
    findFilesRecursive path t = Except.ok (RTree.leaves path t)
  | _, RTree.file sz, _, hd => by simp [RTree.statOf] at hd
  | _, RTree.baddir m, hb, _ => by simp [RTree.hasBad] at hb
  | path, RTree.dir f, hb, _ => by
      simp only [findFilesRecursive, RTree.leaves]
      exact findFilesForest_ok path f (by simpa [RTree.hasBad] using hb)

/-- Forest version of `findFilesRecursive_ok`. -/
theorem findFilesForest_ok : ∀ (path : List String) (f : RForest),
    RForest.hasBad f = false →
    findFilesForest path f = Except.ok (RForest.leaves path f)
  | _, RForest.nil, _ => rfl
  | path, RForest.cons name t rest, hb => by
      have hbt : RTree.hasBad t = false := by
        simp only [RForest.hasBad, Bool.or_eq_false_iff] at hb
        exact hb.1
      have hbr : RForest.hasBad rest = false := by
        simp only [RForest.hasBad, Bool.or_eq_false_iff] at hb
        exact hb.2
      cases t with
      | file sz =>
        simp only [findFilesForest, RTree.statOf, RForest.leaves, RTree.leaves]
        rw [findFilesForest_ok path rest hbr]
        simp
      | dir fsub =>
        simp only [findFilesForest, RTree.statOf, RForest.leaves]
        rw [findFilesRecursive_ok (path ++ [name]) (RTree.dir fsub) hbt rfl,
          findFilesForest_ok path rest hbr]
        simp [RTree.leaves]
      | baddir m => simp [RTree.hasBad] at hbt

end

mutual

/-- A failing directory anywhere below a node makes the whole enumeration
return that error — no partial list. -/
theorem findFilesRecursive_err : ∀ (path : List String) (t : RTree),
    RTree.hasBad t = true → ∃ msg, findFilesRecursive path t = Except.error msg
  | _, RTree.file _, hb => by simp [RTree.hasBad] at hb
  | _, RTree.baddir m, _ => ⟨m, rfl⟩
  | path, RTree.dir f, hb => by
      simp only [findFilesRecursive]
      exact findFilesForest_err path f (by simpa [RTree.hasBad] using hb)

/-- Forest version of `findFilesRecursive_err`. -/
theorem findFilesForest_err : ∀ (path : List String) (f : RForest),
    RForest.hasBad f = true → ∃ msg, findFilesForest path f = Except.error msg
  | _, RForest.nil, hb => by simp [RForest.hasBad] at hb
  | path, RForest.cons name t rest, hb => by
      have hb' : RTree.hasBad t = true ∨ RForest.hasBad rest = true := by
        simpa [RForest.hasBad, Bool.or_eq_true] using hb
      by_cases hd : (RTree.statOf t).isDir = true
      · simp only [findFilesForest, if_pos hd]
        cases hfr : findFilesRecursive (path ++ [name]) t with
        | error e => exact ⟨e, rfl⟩
        | ok sub =>
          rcases hb' with hbt | hbr
          · obtain ⟨m, hm⟩ := findFilesRecursive_err (path ++ [name]) t hbt
            rw [hfr] at hm
            simp at hm
          · obtain ⟨m, hm⟩ := findFilesForest_err path rest hbr
            rw [hm]
            exact ⟨m, rfl⟩
      · have hbt : RTree.hasBad t = false := by
          cases t with
          | file sz => rfl
          | dir fsub => simp [RTree.statOf] at hd
          | baddir m => simp [RTree.statOf] at hd
        have hbr : RForest.hasBad rest = true := by
          rcases hb' with h | h
          · rw [hbt] at h; cases h
          · exact h
        obtain ⟨m, hm⟩ := findFilesForest_err path rest hbr
        simp only [findFilesForest, if_neg hd]
        rw [hm]
        exact ⟨m, rfl⟩

end

/-- C4: enumerating a flat directory of plain files returns exactly those
files in listing order; enumerating a nested tree with no failing listing
returns all leaf files across all depths (in depth-first listing order); and
a failing listing anywhere makes the whole enumeration an error, with no
partial list. -/
theorem c4_enumerate_contract (path : List String) (l : List (String × Option Nat))
    (f g : RForest) (hf : RForest.hasBad f = false) (hg : RForest.hasBad g = true) :
    findFilesRecursive path (RTree.dir (forestOfFiles l))
      = Except.ok (l.map (fun e => (path ++ [e.1], (⟨e.2, false⟩ : FileStat)))) ∧
    findFilesRecursive path (RTree.dir f) = Except.ok (RForest.leaves path f) ∧
    (∃ msg, findFilesRecursive path (RTree.dir g) = Except.error msg) := by
  refine ⟨?_, ?_, ?_⟩
  · simp only [findFilesRecursive]
    exact findFilesForest_flat path l
  · exact findFilesRecursive_ok path (RTree.dir f) (by simpa [RTree.hasBad] using hf) rfl
  · exact findFilesRecursive_err path (RTree.dir g) (by simpa [RTree.hasBad] using hg)

/-- Closed witness for C4 on a flat two-file listing, a nested sample tree
and a tree with a failing subdirectory. -/
theorem c4_enumerate_witness :
    RForest.hasBad c4Forest = false ∧ RForest.hasBad c4BadForest = true ∧
    (findFilesRecursive ["data"] (RTree.dir (forestOfFiles [("a", some 1), ("b", none)]))
      = Except.ok [(["data", "a"], (⟨some 1, false⟩ : FileStat)),
          (["data", "b"], (⟨none, false⟩ : FileStat))] ∧
    findFilesRecursive ["data"] (RTree.dir c4Forest)
      = Except.ok (RForest.leaves ["data"] c4Forest) ∧
    (∃ msg, findFilesRecursive ["data"] (RTree.dir c4BadForest) = Except.error msg)) := by
  have hf : RForest.hasBad c4Forest = false := by
    simp [c4Forest, RForest.hasBad, RTree.hasBad]
  have hg : RForest.hasBad c4BadForest = true := by
    simp [c4BadForest, RForest.hasBad, RTree.hasBad]
  exact ⟨hf, hg, by
    have h := c4_enumerate_contract ["data"] [("a", some 1), ("b", none)] c4Forest
      c4BadForest hf hg
    simpa using h⟩

/-- Closed form of the worker loop on an error-free stream of non-empty
chunks: one `InProgress` per chunk carrying the running byte counter, then
one `Completed`; the written bytes are the concatenated chunks. -/
theorem downloadLoop_chunks (name : String) (total : Nat) :
    ∀ (cs : List (List Nat)), (∀ c ∈ cs, c ≠ []) → ∀ (d : Nat),
    downloadLoop name total (cs.map ReadStep.chunk) d
      = ((progressValues d cs).map
            (fun b => (name, DownloadProgress.InProgress b total))
          ++ [(name, DownloadProgress.Completed)], cs.flatten, Except.ok ())
  | [], _, d => rfl
  | c :: cs, h, d => by
      have hc : c ≠ [] := h c (List.mem_cons_self c cs)
      have hlen : ¬ c.length = 0 := by simpa using hc
      simp only [List.map_cons, downloadLoop, if_neg hlen]
      rw [downloadLoop_chunks name total cs (fun x hx => h x (List.mem_cons_of_mem c hx))
        (d + c.length)]
      simp [progressValues]

/-- Closed form of the worker loop when a read or write fails after an
error-free prefix of non-empty chunks: the `InProgress` events of the prefix
were sent, the loop stops with the error, nothing after the failing step is
consumed. -/
theorem downloadLoop_chunks_err (name : String) (total : Nat) (msg : String)
    (rest : List ReadStep) :
    ∀ (cs : List (List Nat)), (∀ c ∈ cs, c ≠ []) → ∀ (d : Nat),
    downloadLoop name total (cs.map ReadStep.chunk ++ ReadStep.fail msg :: rest) d
      = ((progressValues d cs).map
            (fun b => (name, DownloadProgress.InProgress b total)),
          cs.flatten, Except.error msg)
  | [], _, d => rfl
  | c :: cs, h, d => by
      have hc : c ≠ [] := h c (List.mem_cons_self c cs)
      have hlen : ¬ c.length = 0 := by simpa using hc
      simp only [List.map_cons, List.cons_append, downloadLoop, if_neg hlen, List.append_eq]
      rw [downloadLoop_chunks_err name total msg rest cs
        (fun x hx => h x (List.mem_cons_of_mem c hx)) (d + c.length)]
      simp [progressValues]

/-- The byte counter values are non-decreasing from the start value. -/
theorem progressValues_chain (d : Nat) :
    ∀ (cs : List (List Nat)), List.Chain' (· ≤ ·) (d :: progressValues d cs)
  | [] => List.chain'_singleton d
  | c :: cs => by
      rw [progressValues]
      exact List.Chain'.cons (by omega) (progressValues_chain (d + c.length) cs)

/-- The final byte counter value is the start value plus all chunk
lengths. -/
theorem progressValues_getLast (d : Nat) :
    ∀ (cs : List (List Nat)),
    (d :: progressValues d cs).getLast? = some (d + (cs.map List.length).sum)
  | [] => by simp [progressValues]
  | c :: cs => by
      rw [progressValues, List.getLast?_cons_cons, progressValues_getLast (d + c.length) cs]
      simp [Nat.add_assoc]

/-- C5: on an error-free stream of non-empty chunks totalling `S` bytes, the
worker emits one `InProgress` per chunk (displayed total taken from the
stat), with non-decreasing `bytes_done` whose final value is `S`, followed
by exactly one final `Completed`; it writes exactly the streamed bytes (`S`
of them) to the local file and returns success. -/
theorem c5_download_success (name : String) (stat : FileStat)
    (cs : List (List Nat)) (hne : ∀ c ∈ cs, c ≠ []) :
    (downloadFile name stat (cs.map ReadStep.chunk)).1
      = (progressValues 0 cs).map
          (fun b => (name, DownloadProgress.InProgress b (stat.size.getD 0)))
        ++ [(name, DownloadProgress.Completed)] ∧
    (downloadFile name stat (cs.map ReadStep.chunk)).2.1 = cs.flatten ∧
    (downloadFile name stat (cs.map ReadStep.chunk)).2.1.length
      = (cs.map List.length).sum ∧
    (downloadFile name stat (cs.map ReadStep.chunk)).2.2 = Except.ok () ∧
    List.Chain' (· ≤ ·) (0 :: progressValues 0 cs) ∧
    (0 :: progressValues 0 cs).getLast? = some ((cs.map List.length).sum) := by
  have h := downloadLoop_chunks name (stat.size.getD 0) cs hne 0
  refine ⟨?_, ?_, ?_, ?_, progressValues_chain 0 cs, ?_⟩
  · rw [downloadFile, h]
  · rw [downloadFile, h]
  · rw [downloadFile, h, List.length_flatten]
  · rw [downloadFile, h]
  · rw [progressValues_getLast 0 cs]
    simp

/-- Closed witness for C5 on the stream `[7], [8, 9]` of three bytes. -/
theorem c5_download_success_witness :
    (downloadFile "f" ⟨some 3, false⟩ ([[7], [8, 9]].map ReadStep.chunk)).1
      = (progressValues 0 [[7], [8, 9]]).map
          (fun b => ("f", DownloadProgress.InProgress b ((some 3).getD 0)))
        ++ [("f", DownloadProgress.Completed)] ∧
    (downloadFile "f" ⟨some 3, false⟩ ([[7], [8, 9]].map ReadStep.chunk)).2.1
      = [[7], [8, 9]].flatten ∧
    (downloadFile "f" ⟨some 3, false⟩ ([[7], [8, 9]].map ReadStep.chunk)).2.1.length
      = ([[7], [8, 9]].map List.length).sum ∧
    (downloadFile "f" ⟨some 3, false⟩ ([[7], [8, 9]].map ReadStep.chunk)).2.2
      = Except.ok () ∧
    List.Chain' (· ≤ ·) (0 :: progressValues 0 [[7], [8, 9]]) ∧
    (0 :: progressValues 0 [[7], [8, 9]]).getLast?
      = some (([[7], [8, 9]].map List.length).sum) :=
  c5_download_success "f" ⟨some 3, false⟩ [[7], [8, 9]] (by decide)

/-- C6: when a read or write fails after an error-free prefix, the worker
wrapper emits the prefix `InProgress` events followed by exactly one
`Failed` carrying the reason, emits no `Completed` at all and nothing after
the `Failed`, and never retries: the result does not depend on anything in
the stream after the failing step. -/
theorem c6_download_failure (name : String) (stat : FileStat)
    (cs : List (List Nat)) (msg : String) (rest : List ReadStep)
    (hne : ∀ c ∈ cs, c ≠ []) :
    downloadAndReport name stat (cs.map ReadStep.chunk ++ ReadStep.fail msg :: rest)
      = (progressValues 0 cs).map
          (fun b => (name, DownloadProgress.InProgress b (stat.size.getD 0)))
        ++ [(name, DownloadProgress.Failed msg)] ∧
    (∀ ev ∈ downloadAndReport name stat
        (cs.map ReadStep.chunk ++ ReadStep.fail msg :: rest),
      ev.2 ≠ DownloadProgress.Completed) ∧
    (downloadAndReport name stat
        (cs.map ReadStep.chunk ++ ReadStep.fail msg :: rest)).countP
      (fun ev => decide (ev.2 = DownloadProgress.Failed msg)) = 1 ∧
    downloadAndReport name stat (cs.map ReadStep.chunk ++ ReadStep.fail msg :: rest)
      = downloadAndReport name stat (cs.map ReadStep.chunk ++ [ReadStep.fail msg]) := by
  have h := downloadLoop_chunks_err name (stat.size.getD 0) msg rest cs hne 0
  have h0 := downloadLoop_chunks_err name (stat.size.getD 0) msg [] cs hne 0
  have hrep : downloadAndReport name stat
      (cs.map ReadStep.chunk ++ ReadStep.fail msg :: rest)
      = (progressValues 0 cs).map
          (fun b => (name, DownloadProgress.InProgress b (stat.size.getD 0)))
        ++ [(name, DownloadProgress.Failed msg)] := by
    rw [downloadAndReport, downloadFile, h]
  refine ⟨hrep, ?_, ?_, ?_⟩
  · intro ev hev
    rw [hrep] at hev
    rcases List.mem_append.1 hev with hm | hm
    · obtain ⟨b, _, rfl⟩ := List.mem_map.1 hm
      simp
    · simp only [List.mem_singleton] at hm
      subst hm
      simp
  · rw [hrep, List.countP_append, List.countP_map]
    have hz : List.countP
        ((fun ev => decide (ev.2 = DownloadProgress.Failed msg)) ∘
          (fun b => (name, DownloadProgress.InProgress b (stat.size.getD 0))))
        (progressValues 0 cs) = 0 := by
      apply List.countP_eq_zero.2
      intro b _
      simp
    rw [hz]
    simp
  · rw [hrep, downloadAndReport, downloadFile, h0]

/-- Closed witness for C6: one good chunk, then a failing read, then a chunk
that is never consumed. -/
theorem c6_download_failure_witness :
    downloadAndReport "f" ⟨some 3, false⟩
        ([[7]].map ReadStep.chunk ++ ReadStep.fail "eio" :: [ReadStep.chunk [1]])
      = (progressValues 0 [[7]]).map
          (fun b => ("f", DownloadProgress.InProgress b ((some 3).getD 0)))
        ++ [("f", DownloadProgress.Failed "eio")] ∧
    (∀ ev ∈ downloadAndReport "f" ⟨some 3, false⟩
        ([[7]].map ReadStep.chunk ++ ReadStep.fail "eio" :: [ReadStep.chunk [1]]),
      ev.2 ≠ DownloadProgress.Completed) ∧
    (downloadAndReport "f" ⟨some 3, false⟩
        ([[7]].map ReadStep.chunk ++ ReadStep.fail "eio" :: [ReadStep.chunk [1]])).countP
      (fun ev => decide (ev.2 = DownloadProgress.Failed "eio")) = 1 ∧
    downloadAndReport "f" ⟨some 3, false⟩
        ([[7]].map ReadStep.chunk ++ ReadStep.fail "eio" :: [ReadStep.chunk [1]])
      = downloadAndReport "f" ⟨some 3, false⟩
          ([[7]].map ReadStep.chunk ++ [ReadStep.fail "eio"]) :=
  c6_download_failure "f" ⟨some 3, false⟩ [[7]] "eio" [ReadStep.chunk [1]] (by decide)

end Vsftp
